import Mathlib

/-!
Shallow embedding of `src/TriadicRelationalFramework.py`.

Python `Fraction` is modelled by Lean's `Rat` (both keep a reduced fraction
with positive denominator; `Fraction(n, d)` for `d > 0` is `mkRat n d`).
Python ints are `Int`; `//` on positive operands is `Int`'s `/`.
Python values handed to the entry points are modelled by `PyVal`, so that the
`isinstance(x, int) and x > 0` validation can be stated for non-integer
arguments as well. Raised `ValueError`s become the `Except` error channel:
`invalidInput` for the validation failure, `nonIntegerResult` for the
integrality-check failure.
-/

namespace TRF

/-- Error taxonomy: `invalidInput` models the `ValueError` raised by the
argument validation, `nonIntegerResult` the `ValueError` raised when the exact
rational C4 does not reduce to an integer. -/
inductive Err where
  | invalidInput
  | nonIntegerResult
  deriving DecidableEq, Repr

/-- A Python value as passed to the framework's entry points: an `int`, a
non-integer numeric value (carried as an exact rational; only its not being an
`int` matters), or a `str`. -/
inductive PyVal where
  | int (n : Int)
  | float (q : Rat)
  | str (s : String)
  deriving DecidableEq, Repr

/-- The test `isinstance(x, int) and x > 0` applied to one argument. -/
def PyVal.isPosInt : PyVal → Bool
  | .int n => decide (0 < n)
  | _ => false

/-- A value stored inside one stage of a steps trace: the source stores Python
ints and strings (stringified Fractions). -/
inductive TraceVal where
  | int (n : Int)
  | str (s : String)
  deriving DecidableEq, Repr

/-- One stage of a steps trace: a dict of named values, or (for the `K` stage)
a bare string. -/
inductive Stage where
  | dict (entries : List (String × TraceVal))
  | str (s : String)
  deriving DecidableEq, Repr

/-- A steps trace: the ordered key/value pairs of the Python `steps` dict. -/
abbrev Steps := List (String × Stage)

/-- `str()` of a Python `Fraction`: `"n/d"`, or just `"n"` when the denominator
is 1 (a `Fraction` is always stored reduced). -/
def ratStr (q : Rat) : String :=
  if q.den = 1 then toString q.num else toString q.num ++ "/" ++ toString q.den

/-- `math.gcd(x, y, z)` on Python ints: the n-ary gcd folds from the left. -/
def gcd3 (x y z : Int) : Int := Int.gcd (Int.gcd x y) z

/-- `math.gcd(w, x, y, z)` on Python ints. -/
def gcd4 (w x y z : Int) : Int := Int.gcd (Int.gcd (Int.gcd w x) y) z

/-- `TriadicRelationalFramework.compute_triad`: validate, normalize by the gcd
of C1, C2, C3, transform as an exact rational, denormalize with the
integrality check, and return C4, K = 1/(a·b) and the steps trace. -/
def compute_triad (C1 C2 C3 a b : PyVal) : Except Err (Int × Rat × Steps) :=
  match C1, C2, C3, a, b with
  | .int c1, .int c2, .int c3, .int av, .int bv =>
    if 0 < c1 ∧ 0 < c2 ∧ 0 < c3 ∧ 0 < av ∧ 0 < bv then
      let gcd_in : Int := gcd3 c1 c2 c3
      let C1_prime : Int := c1 / gcd_in
      let C2_prime : Int := c2 / gcd_in
      let C3_prime : Int := c3 / gcd_in
      let C4_prime : Rat := mkRat (av * C2_prime * C3_prime) (bv * C1_prime).toNat
      let C4q : Rat := C4_prime * (gcd_in : Rat)
      if C4q.den ≠ 1 then
        .error .nonIntegerResult
      else
        let C4 : Int := C4q.num
        let K : Rat := mkRat 1 (av * bv).toNat
        .ok (C4, K,
          [("inputs", .dict [("C1", .int c1), ("C2", .int c2), ("C3", .int c3),
              ("a", .int av), ("b", .int bv)]),
           ("normalization", .dict [("gcd_in", .int gcd_in), ("C1_prime", .int C1_prime),
              ("C2_prime", .int C2_prime), ("C3_prime", .int C3_prime)]),
           ("transformation", .dict [("C4_prime", .str (ratStr C4_prime))]),
           ("denormalization", .dict [("C4", .int C4)]),
           ("K", .str (ratStr K))])
    else .error .invalidInput
  | _, _, _, _, _ => .error .invalidInput

/-- `TriadicRelationalFramework.analogy_variant`: same normalization, transform
C4_prime = (C1_prime · C3_prime) / C2_prime, same integrality check; K is the
rational 1/1. Its trace has no `inputs` stage. -/
def analogy_variant (C1 C2 C3 : PyVal) : Except Err (Int × Rat × Steps) :=
  match C1, C2, C3 with
  | .int c1, .int c2, .int c3 =>
    if 0 < c1 ∧ 0 < c2 ∧ 0 < c3 then
      let gcd_in : Int := gcd3 c1 c2 c3
      let C1_prime : Int := c1 / gcd_in
      let C2_prime : Int := c2 / gcd_in
      let C3_prime : Int := c3 / gcd_in
      let C4_prime : Rat := mkRat (C1_prime * C3_prime) C2_prime.toNat
      let C4q : Rat := C4_prime * (gcd_in : Rat)
      if C4q.den ≠ 1 then
        .error .nonIntegerResult
      else
        let C4 : Int := C4q.num
        let K : Rat := mkRat 1 1
        .ok (C4, K,
          [("normalization", .dict [("gcd_in", .int gcd_in), ("C1_prime", .int C1_prime),
              ("C2_prime", .int C2_prime), ("C3_prime", .int C3_prime)]),
           ("transformation", .dict [("C4_prime", .str (ratStr C4_prime))]),
           ("denormalization", .dict [("C4", .int C4)]),
           ("K", .str (ratStr K))])
    else .error .invalidInput
  | _, _, _ => .error .invalidInput

/-- `TriadicRelationalFramework.check_static_balance`: normalize all four by
their joint gcd, form the ratio (C1_prime·C4_prime)/(C2_prime·C3_prime) as an
exact rational, take a = numerator and b = denominator, reduce the pair by its
gcd (a no-op safety pass), and return (a, b, K = 1/(a·b), trace). -/
def check_static_balance (C1 C2 C3 C4 : PyVal) : Except Err (Int × Int × Rat × Steps) :=
  match C1, C2, C3, C4 with
  | .int c1, .int c2, .int c3, .int c4 =>
    if 0 < c1 ∧ 0 < c2 ∧ 0 < c3 ∧ 0 < c4 then
      let gcd_in : Int := gcd4 c1 c2 c3 c4
      let C1_prime : Int := c1 / gcd_in
      let C2_prime : Int := c2 / gcd_in
      let C3_prime : Int := c3 / gcd_in
      let C4_prime : Int := c4 / gcd_in
      let ratio : Rat := mkRat (C1_prime * C4_prime) (C2_prime * C3_prime).toNat
      let a0 : Int := ratio.num
      let b0 : Int := (ratio.den : Int)
      let gcd_ab : Int := Int.gcd a0 b0
      let a1 : Int := a0 / gcd_ab
      let b1 : Int := b0 / gcd_ab
      let K : Rat := mkRat 1 (a1 * b1).toNat
      .ok (a1, b1, K,
        [("inputs", .dict [("C1", .int c1), ("C2", .int c2), ("C3", .int c3),
            ("C4", .int c4)]),
         ("normalization", .dict [("gcd_in", .int gcd_in), ("C1_prime", .int C1_prime),
            ("C2_prime", .int C2_prime), ("C3_prime", .int C3_prime),
            ("C4_prime", .int C4_prime)]),
         ("balancing", .dict [("a", .int a1), ("b", .int b1)]),
         ("K", .str (ratStr K))])
    else .error .invalidInput
  | _, _, _, _ => .error .invalidInput

/-- The loop of `chain_triads`, carrying the accumulated K list and steps list;
each iteration appends to the accumulators and feeds C4 forward. -/
def chainLoop (cur : PyVal) (ks : List Rat) (sts : List Steps) :
    List (PyVal × PyVal × PyVal × PyVal) → Except Err (PyVal × List Rat × List Steps)
  | [] => .ok (cur, ks, sts)
  | (c2, c3, a, b) :: rest =>
    match compute_triad cur c2 c3 a b with
    | .error e => .error e
    | .ok (c4, K, st) => chainLoop (.int c4) (ks ++ [K]) (sts ++ [st]) rest

/-- `TriadicRelationalFramework.chain_triads`: iterate `compute_triad` over the
triad list, feeding each output C4 in as the next C1. -/
def chain_triads (initial_C1 : PyVal) (triad_list : List (PyVal × PyVal × PyVal × PyVal)) :
    Except Err (PyVal × List Rat × List Steps) :=
  chainLoop initial_C1 [] [] triad_list

/-- The `TriadicNetwork` graph state: nodes as an id-keyed association list
carrying the K attribute, edges as (from, to, weight) triples. `nx.DiGraph`
keeps at most one node per id and one edge per ordered pair; re-adding
overwrites the attribute. -/
structure Network where
  nodes : List (String × Rat)
  edges : List (String × String × Rat)
  deriving DecidableEq, Repr

/-- `from_id in self.graph`: node membership. -/
def hasNode (g : Network) (i : String) : Bool := g.nodes.any fun p => p.1 == i

/-- `DiGraph.add_node` with an attribute: overwrite when present, else append. -/
def addNode (ns : List (String × Rat)) (i : String) (k : Rat) : List (String × Rat) :=
  if ns.any (fun p => p.1 == i) then ns.map fun p => if p.1 == i then (i, k) else p
  else ns ++ [(i, k)]

/-- `DiGraph.add_edge` as exercised here (both endpoints already exist):
overwrite the weight when the ordered pair is present, else append. -/
def addEdge (es : List (String × String × Rat)) (f t : String) (w : Rat) :
    List (String × String × Rat) :=
  if es.any (fun e => e.1 == f && e.2.1 == t) then
    es.map fun e => if e.1 == f && e.2.1 == t then (f, t, w) else e
  else es ++ [(f, t, w)]

/-- `TriadicNetwork.add_triad`: run `compute_triad` (its errors propagate) and
store the node with the computed K, discarding C4 and the trace. -/
def add_triad (g : Network) (triad_id : String) (C1 C2 C3 a b : PyVal) :
    Except Err Network :=
  match compute_triad C1 C2 C3 a b with
  | .error e => .error e
  | .ok (_, K, _) => .ok { g with nodes := addNode g.nodes triad_id K }

/-- `TriadicNetwork.add_connection`: only when both ids are nodes, add the
directed edge weighted by the `from_id` node's stored K; otherwise do nothing. -/
def add_connection (g : Network) (from_id to_id : String) : Network :=
  if hasNode g from_id && hasNode g to_id then
    match g.nodes.lookup from_id with
    | some w => { g with edges := addEdge g.edges from_id to_id w }
    | none => g
  else g

/-- The C4 component of a successful forward-transform result. -/
def getC4 (r : Except Err (Int × Rat × Steps)) : Option Int :=
  r.toOption.map Prod.fst

/-- The K component of a successful forward-transform result. -/
def getK (r : Except Err (Int × Rat × Steps)) : Option Rat :=
  r.toOption.map fun p => p.2.1

/-- The stage names of a result's trace, in order (empty on error). -/
def traceKeys (r : Except Err (Int × Rat × Steps)) : List String :=
  match r with
  | .ok (_, _, st) => st.map Prod.fst
  | .error _ => []

/-- Whether a forward-transform call returned without raising. -/
def isSuccess : Except Err (Int × Rat × Steps) → Bool
  | .ok _ => true
  | .error _ => false

/-- The steps trace of a successful forward-transform result (empty on error). -/
def traceOf : Except Err (Int × Rat × Steps) → Steps
  | .ok (_, _, st) => st
  | .error _ => []

/-- The spec's closed-form value for C4 (testable property 1 of the spec, §8):
g · (a·(C2/g)·(C3/g)) / (b·(C1/g)) with g = gcd(C1, C2, C3), as an exact
rational; the inner divisions are the exact integer divisions by the gcd. -/
def specC4 (c1 c2 c3 a b : ℤ) : ℚ :=
  (gcd3 c1 c2 c3 : ℚ) *
      ((a : ℚ) * ((c2 / gcd3 c1 c2 c3 : ℤ) : ℚ) * ((c3 / gcd3 c1 c2 c3 : ℤ) : ℚ)) /
    ((b : ℚ) * ((c1 / gcd3 c1 c2 c3 : ℤ) : ℚ))

/-- Stated from claim C9's words: the forward transform with no gcd step at
all — validate, form a·C2·C3/(b·C1) as one exact rational, fail with
`nonIntegerResult` when it is not an integer, else return it with
K = 1/(a·b). Only the (C4, K) result is produced, for comparison with
`compute_triad` up to the trace. -/
def compute_triad_direct (C1 C2 C3 a b : PyVal) : Except Err (Int × Rat) :=
  match C1, C2, C3, a, b with
  | .int c1, .int c2, .int c3, .int av, .int bv =>
    if 0 < c1 ∧ 0 < c2 ∧ 0 < c3 ∧ 0 < av ∧ 0 < bv then
      let q : Rat := mkRat (av * c2 * c3) (bv * c1).toNat
      if q.den ≠ 1 then .error .nonIntegerResult
      else .ok (q.num, mkRat 1 (av * bv).toNat)
    else .error .invalidInput
  | _, _, _, _, _ => .error .invalidInput

/-- The `ratio` variable of `check_static_balance` on already-unwrapped ints. -/
def balRatio (c1 c2 c3 c4 : ℤ) : ℚ :=
  mkRat ((c1 / gcd4 c1 c2 c3 c4) * (c4 / gcd4 c1 c2 c3 c4))
    (((c2 / gcd4 c1 c2 c3 c4) * (c3 / gcd4 c1 c2 c3 c4)).toNat)

/-- The `a` value `check_static_balance` returns: the ratio's numerator after
the gcd safety pass. -/
def balA (c1 c2 c3 c4 : ℤ) : ℤ :=
  (balRatio c1 c2 c3 c4).num /
    Int.gcd (balRatio c1 c2 c3 c4).num ((balRatio c1 c2 c3 c4).den : ℤ)

/-- The `b` value `check_static_balance` returns: the ratio's denominator after
the gcd safety pass. -/
def balB (c1 c2 c3 c4 : ℤ) : ℤ :=
  ((balRatio c1 c2 c3 c4).den : ℤ) /
    Int.gcd (balRatio c1 c2 c3 c4).num ((balRatio c1 c2 c3 c4).den : ℤ)

/-- A `Fraction(n, d)` with nonnegative `d` is the rational n/d. -/
lemma mkRat_toNat_eq_div (n d : ℤ) (hd : 0 ≤ d) : mkRat n d.toNat = (n : ℚ) / (d : ℚ) := by
  rw [Rat.mkRat_eq_div]
  congr 1
  rw [show ((d.toNat : ℕ) : ℚ) = ((d.toNat : ℤ) : ℚ) by push_cast; ring, Int.toNat_of_nonneg hd]

/-- The three-way gcd is positive as soon as its first argument is. -/
lemma gcd3_pos {x y z : ℤ} (hx : 0 < x) : 0 < gcd3 x y z := by
  unfold gcd3
  have h1 : Int.gcd x y ≠ 0 := by
    simp [Int.gcd_eq_zero_iff]
    intro h; omega
  have : Int.gcd (Int.gcd x y : ℤ) z ≠ 0 := by
    simp [Int.gcd_eq_zero_iff]
    intro h; omega
  omega

lemma gcd3_dvd_1 (x y z : ℤ) : gcd3 x y z ∣ x := by
  unfold gcd3
  exact dvd_trans Int.gcd_dvd_left Int.gcd_dvd_left

lemma gcd3_dvd_2 (x y z : ℤ) : gcd3 x y z ∣ y := by
  unfold gcd3
  exact dvd_trans Int.gcd_dvd_left Int.gcd_dvd_right

lemma gcd3_dvd_3 (x y z : ℤ) : gcd3 x y z ∣ z := by
  unfold gcd3
  exact Int.gcd_dvd_right

/-- The four-way gcd is positive as soon as its first argument is. -/
lemma gcd4_pos {w x y z : ℤ} (hw : 0 < w) : 0 < gcd4 w x y z := by
  unfold gcd4
  have h1 : Int.gcd w x ≠ 0 := by
    simp [Int.gcd_eq_zero_iff]; intro h; omega
  have h2 : Int.gcd (Int.gcd w x : ℤ) y ≠ (0 : ℕ) := by
    simp [Int.gcd_eq_zero_iff]; intro h; omega
  have h3 : Int.gcd (Int.gcd (Int.gcd w x : ℤ) y : ℤ) z ≠ (0 : ℕ) := by
    simp [Int.gcd_eq_zero_iff]; intro h; omega
  omega

lemma gcd4_dvd_1 (w x y z : ℤ) : gcd4 w x y z ∣ w := by
  unfold gcd4
  exact dvd_trans Int.gcd_dvd_left (dvd_trans Int.gcd_dvd_left Int.gcd_dvd_left)

lemma gcd4_dvd_2 (w x y z : ℤ) : gcd4 w x y z ∣ x := by
  unfold gcd4
  exact dvd_trans Int.gcd_dvd_left (dvd_trans Int.gcd_dvd_left Int.gcd_dvd_right)

lemma gcd4_dvd_3 (w x y z : ℤ) : gcd4 w x y z ∣ y := by
  unfold gcd4
  exact dvd_trans Int.gcd_dvd_left Int.gcd_dvd_right

lemma gcd4_dvd_4 (w x y z : ℤ) : gcd4 w x y z ∣ z := by
  unfold gcd4
  exact Int.gcd_dvd_right

/-- Exact division of positives by a positive divisor stays positive. -/
lemma div_pos_of_dvd {g c : ℤ} (hg : 0 < g) (hc : 0 < c) (hdvd : g ∣ c) : 0 < c / g := by
  rcases hdvd with ⟨k, hk⟩
  subst hk
  rw [Int.mul_ediv_cancel_left _ (by omega)]
  nlinarith

/-- The normalization by gcd(C1,C2,C3) cancels on denormalization: the code's
denormalized rational equals the plain a·C2·C3/(b·C1). -/
lemma triad_q_eq {c1 c2 c3 a b : ℤ} (h1 : 0 < c1) (h2 : 0 < c2) (h3 : 0 < c3)
    (ha : 0 < a) (hb : 0 < b) :
    mkRat (a * (c2 / gcd3 c1 c2 c3) * (c3 / gcd3 c1 c2 c3))
        (b * (c1 / gcd3 c1 c2 c3)).toNat * ((gcd3 c1 c2 c3 : ℤ) : ℚ)
      = ((a * c2 * c3 : ℤ) : ℚ) / ((b * c1 : ℤ) : ℚ) := by
  have hg : 0 < gcd3 c1 c2 c3 := gcd3_pos h1
  have hp1 : 0 < c1 / gcd3 c1 c2 c3 := div_pos_of_dvd hg h1 (gcd3_dvd_1 c1 c2 c3)
  have e1 : gcd3 c1 c2 c3 * (c1 / gcd3 c1 c2 c3) = c1 := Int.mul_ediv_cancel' (gcd3_dvd_1 c1 c2 c3)
  have e2 : gcd3 c1 c2 c3 * (c2 / gcd3 c1 c2 c3) = c2 := Int.mul_ediv_cancel' (gcd3_dvd_2 c1 c2 c3)
  have e3 : gcd3 c1 c2 c3 * (c3 / gcd3 c1 c2 c3) = c3 := Int.mul_ediv_cancel' (gcd3_dvd_3 c1 c2 c3)
  set g := gcd3 c1 c2 c3 with hgdef
  set p1 := c1 / g with hp1def
  set p2 := c2 / g with hp2def
  set p3 := c3 / g with hp3def
  rw [mkRat_toNat_eq_div _ _ (by positivity)]
  rw [← e1, ← e2, ← e3]
  have hgQ : (g : ℚ) ≠ 0 := by exact_mod_cast hg.ne'
  have hbQ : (b : ℚ) ≠ 0 := by exact_mod_cast hb.ne'
  have hp1Q : ((p1 : ℤ) : ℚ) ≠ 0 := by exact_mod_cast hp1.ne'
  push_cast
  field_simp
  ring

/-- The joint-gcd normalization cancels inside the balance ratio. -/
lemma balance_ratio_eq {c1 c2 c3 c4 : ℤ} (h1 : 0 < c1) (h2 : 0 < c2) (h3 : 0 < c3)
    (h4 : 0 < c4) :
    mkRat ((c1 / gcd4 c1 c2 c3 c4) * (c4 / gcd4 c1 c2 c3 c4))
        ((c2 / gcd4 c1 c2 c3 c4) * (c3 / gcd4 c1 c2 c3 c4)).toNat
      = ((c1 : ℚ) * (c4 : ℚ)) / ((c2 : ℚ) * (c3 : ℚ)) := by
  have hg : 0 < gcd4 c1 c2 c3 c4 := gcd4_pos h1
  have hp2 : 0 < c2 / gcd4 c1 c2 c3 c4 := div_pos_of_dvd hg h2 (gcd4_dvd_2 c1 c2 c3 c4)
  have hp3 : 0 < c3 / gcd4 c1 c2 c3 c4 := div_pos_of_dvd hg h3 (gcd4_dvd_3 c1 c2 c3 c4)
  have e1 : gcd4 c1 c2 c3 c4 * (c1 / gcd4 c1 c2 c3 c4) = c1 := Int.mul_ediv_cancel' (gcd4_dvd_1 c1 c2 c3 c4)
  have e2 : gcd4 c1 c2 c3 c4 * (c2 / gcd4 c1 c2 c3 c4) = c2 := Int.mul_ediv_cancel' (gcd4_dvd_2 c1 c2 c3 c4)
  have e3 : gcd4 c1 c2 c3 c4 * (c3 / gcd4 c1 c2 c3 c4) = c3 := Int.mul_ediv_cancel' (gcd4_dvd_3 c1 c2 c3 c4)
  have e4 : gcd4 c1 c2 c3 c4 * (c4 / gcd4 c1 c2 c3 c4) = c4 := Int.mul_ediv_cancel' (gcd4_dvd_4 c1 c2 c3 c4)
  set g := gcd4 c1 c2 c3 c4 with hgdef
  set p1 := c1 / g
  set p2 := c2 / g
  set p3 := c3 / g
  set p4 := c4 / g
  rw [mkRat_toNat_eq_div _ _ (by positivity)]
  rw [← e1, ← e2, ← e3, ← e4]
  have hgQ : (g : ℚ) ≠ 0 := by exact_mod_cast hg.ne'
  have hp2Q : ((p2 : ℤ) : ℚ) ≠ 0 := by exact_mod_cast hp2.ne'
  have hp3Q : ((p3 : ℤ) : ℚ) ≠ 0 := by exact_mod_cast hp3.ne'
  push_cast
  field_simp
  ring

/-- A rational has denominator 1 exactly when it is an integer. -/
lemma den_one_iff_int (q : ℚ) : q.den = 1 ↔ ∃ n : ℤ, q = (n : ℚ) := by
  constructor
  · intro h
    exact ⟨q.num, ((Rat.den_eq_one_iff q).mp h).symm⟩
  · rintro ⟨n, rfl⟩
    exact Rat.den_intCast n

/-- The code's denormalized rational equals the spec's §8 closed form. -/
lemma specC4_eq_code (c1 c2 c3 a b : ℤ) (h1 : 0 < c1) (hb : 0 < b) :
    mkRat (a * (c2 / gcd3 c1 c2 c3) * (c3 / gcd3 c1 c2 c3))
        (b * (c1 / gcd3 c1 c2 c3)).toNat * ((gcd3 c1 c2 c3 : ℤ) : ℚ)
      = specC4 c1 c2 c3 a b := by
  have hg : 0 < gcd3 c1 c2 c3 := gcd3_pos h1
  have hp1 : 0 < c1 / gcd3 c1 c2 c3 := div_pos_of_dvd hg h1 (gcd3_dvd_1 c1 c2 c3)
  rw [mkRat_toNat_eq_div _ _ (by positivity)]
  unfold specC4
  push_cast
  ring

/-- A stored rational's numerator and denominator are already co-prime. -/
lemma int_gcd_num_den (q : ℚ) : Int.gcd q.num (q.den : ℤ) = 1 := by
  have h := q.reduced
  unfold Int.gcd
  rw [Int.natAbs_ofNat]
  exact h

/-- On valid inputs, `check_static_balance` returns the ratio-derived pair and
its K, for some trace. -/
lemma check_static_balance_form (c1 c2 c3 c4 : ℤ)
    (h4 : 0 < c1 ∧ 0 < c2 ∧ 0 < c3 ∧ 0 < c4) :
    ∃ st : Steps,
      check_static_balance (.int c1) (.int c2) (.int c3) (.int c4) =
        .ok (balA c1 c2 c3 c4, balB c1 c2 c3 c4,
          mkRat 1 (balA c1 c2 c3 c4 * balB c1 c2 c3 c4).toNat, st) := by
  simp only [check_static_balance]
  rw [if_pos h4]
  exact ⟨_, rfl⟩

/-- Everything a successful `compute_triad` call pins down: the arguments were
positive ints, the denormalized rational is an integer, and the result is that
integer with K = 1/(a·b) and the five-stage trace. -/
lemma compute_triad_ok {v1 v2 v3 v4 v5 : PyVal} {r : Int × Rat × Steps}
    (h : compute_triad v1 v2 v3 v4 v5 = .ok r) :
    ∃ c1 c2 c3 a b : ℤ,
      v1 = .int c1 ∧ v2 = .int c2 ∧ v3 = .int c3 ∧ v4 = .int a ∧ v5 = .int b ∧
      (0 < c1 ∧ 0 < c2 ∧ 0 < c3 ∧ 0 < a ∧ 0 < b) ∧
      (mkRat (a * (c2 / gcd3 c1 c2 c3) * (c3 / gcd3 c1 c2 c3))
          (b * (c1 / gcd3 c1 c2 c3)).toNat * ((gcd3 c1 c2 c3 : ℤ) : ℚ)).den = 1 ∧
      r = ((mkRat (a * (c2 / gcd3 c1 c2 c3) * (c3 / gcd3 c1 c2 c3))
              (b * (c1 / gcd3 c1 c2 c3)).toNat * ((gcd3 c1 c2 c3 : ℤ) : ℚ)).num,
           mkRat 1 (a * b).toNat,
           [("inputs", .dict [("C1", .int c1), ("C2", .int c2), ("C3", .int c3),
               ("a", .int a), ("b", .int b)]),
            ("normalization", .dict [("gcd_in", .int (gcd3 c1 c2 c3)),
               ("C1_prime", .int (c1 / gcd3 c1 c2 c3)), ("C2_prime", .int (c2 / gcd3 c1 c2 c3)),
               ("C3_prime", .int (c3 / gcd3 c1 c2 c3))]),
            ("transformation", .dict [("C4_prime", .str (ratStr
               (mkRat (a * (c2 / gcd3 c1 c2 c3) * (c3 / gcd3 c1 c2 c3))
                 (b * (c1 / gcd3 c1 c2 c3)).toNat)))]),
            ("denormalization", .dict [("C4", .int
               (mkRat (a * (c2 / gcd3 c1 c2 c3) * (c3 / gcd3 c1 c2 c3))
                   (b * (c1 / gcd3 c1 c2 c3)).toNat * ((gcd3 c1 c2 c3 : ℤ) : ℚ)).num)]),
            ("K", .str (ratStr (mkRat 1 (a * b).toNat)))]) := by
  cases v1 <;> cases v2 <;> cases v3 <;> cases v4 <;> cases v5 <;>
    simp only [compute_triad] at h <;> try exact Except.noConfusion h
  rename_i c1 c2 c3 a b
  split_ifs at h with hcond hden
  · rw [Except.ok.injEq] at h
    exact ⟨c1, c2, c3, a, b, rfl, rfl, rfl, rfl, rfl, hcond, not_not.mp hden, h.symm⟩
  all_goals exact Except.noConfusion h

/-- A successful `analogy_variant` call's K component is the literal
`Fraction(1, 1)`. -/
lemma analogy_ok_K {v1 v2 v3 : PyVal} {r : Int × Rat × Steps}
    (h : analogy_variant v1 v2 v3 = .ok r) : r.2.1 = mkRat 1 1 := by
  cases v1 <;> cases v2 <;> cases v3 <;> simp only [analogy_variant] at h <;>
    try exact Except.noConfusion h
  split_ifs at h with hcond hden
  · rw [Except.ok.injEq] at h
    rw [← h]

/-- The loop of `chain_triads` with loaded accumulators is the loop with empty
accumulators, prefixed. -/
lemma chainLoop_append (l : List (PyVal × PyVal × PyVal × PyVal)) :
    ∀ (cur : PyVal) (ks : List Rat) (sts : List Steps),
      chainLoop cur ks sts l =
        (chainLoop cur [] [] l).map fun r => (r.1, ks ++ r.2.1, sts ++ r.2.2) := by
  induction l with
  | nil =>
    intro cur ks sts
    simp [chainLoop, Except.map]
  | cons t rest ih =>
    intro cur ks sts
    obtain ⟨c2, c3, a, b⟩ := t
    simp only [chainLoop]
    rcases compute_triad cur c2 c3 a b with e | ⟨c4, K, st⟩
    · rfl
    · dsimp only
      rw [ih (.int c4) (ks ++ [K]) (sts ++ [st]), ih (.int c4) ([] ++ [K]) ([] ++ [st])]
      rcases chainLoop (.int c4) [] [] rest with e' | r'
      · rfl
      · simp [Except.map]

/-- A key that some pair of an association list carries is found by lookup. -/
lemma any_key_lookup (l : List (String × ℚ)) (f : String)
    (h : (l.any fun p => p.1 == f) = true) : ∃ w, l.lookup f = some w := by
  induction l with
  | nil => simp at h
  | cons p rest ih =>
    rw [List.any_cons] at h
    rcases Bool.or_eq_true_iff.mp h with h1 | h2
    · refine ⟨p.2, ?_⟩
      have : f == p.1 := by
        have he : p.1 = f := eq_of_beq h1
        simp [he]
      simp [List.lookup, this]
    · by_cases hfp : (f == p.1) = true
      · exact ⟨p.2, by simp [List.lookup, hfp]⟩
      · obtain ⟨w, hw⟩ := ih h2
        refine ⟨w, ?_⟩
        simp only [List.lookup]
        rw [Bool.eq_false_iff.mpr hfp]
        exact hw

/-- The edge written by the graph's edge-insert is in the resulting edge list. -/
lemma mem_addEdge (es : List (String × String × Rat)) (f t : String) (w : Rat) :
    (f, t, w) ∈ addEdge es f t w := by
  unfold addEdge
  split
  · rename_i h
    obtain ⟨e, he, hpred⟩ := List.any_eq_true.mp h
    have : (if e.1 == f && e.2.1 == t then (f, t, w) else e) ∈
        es.map fun e => if e.1 == f && e.2.1 == t then (f, t, w) else e :=
      List.mem_map_of_mem _ he
    rw [hpred] at this
    simpa using this
  · simp

/-- `compute_triad` raises the validation error exactly when some argument
fails `isinstance(x, int) and x > 0`. -/
lemma compute_triad_invalid_iff (v1 v2 v3 v4 v5 : PyVal) :
    compute_triad v1 v2 v3 v4 v5 = .error .invalidInput ↔
      ¬(v1.isPosInt = true ∧ v2.isPosInt = true ∧ v3.isPosInt = true ∧
        v4.isPosInt = true ∧ v5.isPosInt = true) := by
  cases v1 <;> cases v2 <;> cases v3 <;> cases v4 <;> cases v5 <;>
    simp [compute_triad, PyVal.isPosInt] <;>
    (intros
     split <;> simp)

/-- `analogy_variant` raises the validation error exactly when some argument
fails `isinstance(x, int) and x > 0`. -/
lemma analogy_variant_invalid_iff (v1 v2 v3 : PyVal) :
    analogy_variant v1 v2 v3 = .error .invalidInput ↔
      ¬(v1.isPosInt = true ∧ v2.isPosInt = true ∧ v3.isPosInt = true) := by
  cases v1 <;> cases v2 <;> cases v3 <;>
    simp [analogy_variant, PyVal.isPosInt] <;>
    (intros
     split <;> simp)

/-- `check_static_balance` raises the validation error exactly when some
argument fails `isinstance(x, int) and x > 0`. -/
lemma check_static_balance_invalid_iff (v1 v2 v3 v4 : PyVal) :
    check_static_balance v1 v2 v3 v4 = .error .invalidInput ↔
      ¬(v1.isPosInt = true ∧ v2.isPosInt = true ∧ v3.isPosInt = true ∧
        v4.isPosInt = true) := by
  cases v1 <;> cases v2 <;> cases v3 <;> cases v4 <;>
    simp [check_static_balance, PyVal.isPosInt]

/-- Claim C1: for all positive integers C1, C2, C3, a, b with
g = gcd(C1, C2, C3), `compute_triad` returns C4 = g·(a·(C2/g)·(C3/g))/(b·(C1/g))
exactly when that quotient is an integer, and raises `NonIntegerResult`
otherwise. -/
theorem compute_triad_formula (c1 c2 c3 a b : ℤ)
    (h1 : 0 < c1) (h2 : 0 < c2) (h3 : 0 < c3) (ha : 0 < a) (hb : 0 < b) :
    (∀ n : ℤ, specC4 c1 c2 c3 a b = (n : ℚ) →
        getC4 (compute_triad (.int c1) (.int c2) (.int c3) (.int a) (.int b)) = some n)
    ∧ ((∀ n : ℤ, specC4 c1 c2 c3 a b ≠ (n : ℚ)) →
        compute_triad (.int c1) (.int c2) (.int c3) (.int a) (.int b)
          = .error .nonIntegerResult) := by
  have hcond : 0 < c1 ∧ 0 < c2 ∧ 0 < c3 ∧ 0 < a ∧ 0 < b := ⟨h1, h2, h3, ha, hb⟩
  have hqe := specC4_eq_code c1 c2 c3 a b h1 hb
  constructor
  · intro n hn
    have hc4 : mkRat (a * (c2 / gcd3 c1 c2 c3) * (c3 / gcd3 c1 c2 c3))
        (b * (c1 / gcd3 c1 c2 c3)).toNat * ((gcd3 c1 c2 c3 : ℤ) : ℚ) = (n : ℚ) := by
      rw [hqe]; exact hn
    have hden : (mkRat (a * (c2 / gcd3 c1 c2 c3) * (c3 / gcd3 c1 c2 c3))
        (b * (c1 / gcd3 c1 c2 c3)).toNat * ((gcd3 c1 c2 c3 : ℤ) : ℚ)).den = 1 := by
      rw [hc4]; exact Rat.den_intCast n
    have hnum : (mkRat (a * (c2 / gcd3 c1 c2 c3) * (c3 / gcd3 c1 c2 c3))
        (b * (c1 / gcd3 c1 c2 c3)).toNat * ((gcd3 c1 c2 c3 : ℤ) : ℚ)).num = n := by
      rw [hc4]; exact Rat.num_intCast n
    simp [getC4, compute_triad, hcond, hden, hnum]
    exact ⟨_, _, rfl⟩
  · intro hno
    have hden : (mkRat (a * (c2 / gcd3 c1 c2 c3) * (c3 / gcd3 c1 c2 c3))
        (b * (c1 / gcd3 c1 c2 c3)).toNat * ((gcd3 c1 c2 c3 : ℤ) : ℚ)).den ≠ 1 := by
      intro h
      obtain ⟨m, hm⟩ := (den_one_iff_int _).mp h
      exact hno m (by rw [← hqe]; exact hm)
    simp [compute_triad, hcond, hden]

/-- Claim C1, witness: at (18, 6, 8, 3, 4) the spec formula gives the integer 2
and `compute_triad` returns it. -/
theorem compute_triad_formula_witness :
    getC4 (compute_triad (.int 18) (.int 6) (.int 8) (.int 3) (.int 4)) = some 2 :=
  (compute_triad_formula 18 6 8 3 4 (by norm_num) (by norm_num) (by norm_num) (by norm_num)
    (by norm_num)).1 2 (by norm_num [specC4, gcd3])

/-- Claim C3, counterexample: `compute_triad(18, 6, 8, 3, 4)` does not return
C4 = 6, refuting the claimed scenario-A value. -/
theorem scenario_A_not_six :
    getC4 (compute_triad (.int 18) (.int 6) (.int 8) (.int 3) (.int 4)) ≠ some 6 := by
  have h36 : mkRat 36 (Int.toNat 36) * 2 = (2 : ℚ) := by
    rw [mkRat_toNat_eq_div 36 36 (by norm_num)]; norm_num
  have hv : getC4 (compute_triad (.int 18) (.int 6) (.int 8) (.int 3) (.int 4)) = some 2 := by
    norm_num [getC4, compute_triad, gcd3, h36]
    exact ⟨_, _, rfl⟩
  rw [hv]
  simp

/-- Claim C3 as amended: `compute_triad(18, 6, 8, 3, 4)` succeeds and returns
C4 = 2 and K = 1/12 (g = 2, C4_prime = 36/36 = 1, C4 = 2). -/
theorem scenario_A_values :
    getC4 (compute_triad (.int 18) (.int 6) (.int 8) (.int 3) (.int 4)) = some 2 ∧
    getK (compute_triad (.int 18) (.int 6) (.int 8) (.int 3) (.int 4)) = some ((1 : ℚ) / 12) := by
  have h36 : mkRat 36 (Int.toNat 36) * 2 = (2 : ℚ) := by
    rw [mkRat_toNat_eq_div 36 36 (by norm_num)]; norm_num
  have h12 : mkRat 1 (Int.toNat 12) = (1 : ℚ) / 12 := by
    rw [mkRat_toNat_eq_div 1 12 (by norm_num)]; norm_num
  constructor
  · norm_num [getC4, compute_triad, gcd3, h36]
    exact ⟨_, _, rfl⟩
  · norm_num [getK, compute_triad, gcd3, h36, h12]
    exact ⟨_, _, rfl⟩

/-- Claim C9: the gcd normalization and denormalization cancel exactly —
`compute_triad` is extensionally equal, in result (C4, K) and error condition,
to the direct formula a·C2·C3/(b·C1) with no gcd step. -/
theorem compute_triad_direct_equiv (v1 v2 v3 v4 v5 : PyVal) :
    (compute_triad v1 v2 v3 v4 v5).map (fun r => (r.1, r.2.1)) =
      compute_triad_direct v1 v2 v3 v4 v5 := by
  cases v1 <;> cases v2 <;> cases v3 <;> cases v4 <;> cases v5 <;> try rfl
  rename_i c1 c2 c3 a b
  by_cases hcond : 0 < c1 ∧ 0 < c2 ∧ 0 < c3 ∧ 0 < a ∧ 0 < b
  · have hQ : mkRat (a * (c2 / gcd3 c1 c2 c3) * (c3 / gcd3 c1 c2 c3))
        (b * (c1 / gcd3 c1 c2 c3)).toNat * ((gcd3 c1 c2 c3 : ℤ) : ℚ)
        = mkRat (a * c2 * c3) (b * c1).toNat := by
      obtain ⟨h1, h2, h3, ha, hb⟩ := hcond
      rw [triad_q_eq h1 h2 h3 ha hb, mkRat_toNat_eq_div _ _ (by positivity)]
    simp only [compute_triad, compute_triad_direct, if_pos hcond, hQ]
    split <;> rfl
  · simp only [compute_triad, compute_triad_direct, if_neg hcond]
    rfl

/-- Claim C7: whenever `analogy_variant` succeeds, the returned K is exactly
the rational 1. -/
theorem analogy_K_one (v1 v2 v3 : PyVal)
    (hok : isSuccess (analogy_variant v1 v2 v3) = true) :
    getK (analogy_variant v1 v2 v3) = some 1 := by
  rcases hres : analogy_variant v1 v2 v3 with e | ⟨c4, K, st⟩
  · rw [hres] at hok
    simp [isSuccess] at hok
  · have hK := analogy_ok_K hres
    have h1 : K = (1 : ℚ) := by
      rw [show K = ((c4, K, st) : Int × Rat × Steps).2.1 from rfl, hK, Rat.mkRat_one]
      norm_num
    simp [getK, hres, h1]
    exact ⟨c4, st, rfl⟩

/-- Claim C7, witness: `analogy_variant(21, 3, 5)` succeeds and its K is 1. -/
theorem analogy_K_one_witness :
    getK (analogy_variant (.int 21) (.int 3) (.int 5)) = some 1 :=
  analogy_K_one (.int 21) (.int 3) (.int 5) (by
    have h : mkRat 105 (Int.toNat 3) = (35 : ℚ) := by
      rw [mkRat_toNat_eq_div 105 3 (by norm_num)]; norm_num
    norm_num [isSuccess, analogy_variant, gcd3, h])

/-- Claim C6 as amended: every successful `compute_triad` trace has exactly the
stage names inputs, normalization, transformation, denormalization, K — with no
balancing stage — and the transformation and K stages hold string-formatted
rationals. -/
theorem trace_stage_names (v1 v2 v3 v4 v5 : PyVal)
    (hok : isSuccess (compute_triad v1 v2 v3 v4 v5) = true) :
    traceKeys (compute_triad v1 v2 v3 v4 v5) =
      ["inputs", "normalization", "transformation", "denormalization", "K"] ∧
    (∃ q : ℚ, (traceOf (compute_triad v1 v2 v3 v4 v5)).lookup "transformation"
        = some (.dict [("C4_prime", .str (ratStr q))])) ∧
    (∃ q : ℚ, (traceOf (compute_triad v1 v2 v3 v4 v5)).lookup "K"
        = some (.str (ratStr q))) := by
  rcases hres : compute_triad v1 v2 v3 v4 v5 with e | r
  · rw [hres] at hok
    simp [isSuccess] at hok
  · obtain ⟨c1, c2, c3, a, b, _, _, _, _, _, hcond, hden, hr⟩ := compute_triad_ok hres
    subst hr
    refine ⟨rfl, ⟨mkRat (a * (c2 / gcd3 c1 c2 c3) * (c3 / gcd3 c1 c2 c3))
        (b * (c1 / gcd3 c1 c2 c3)).toNat, ?_⟩, ⟨mkRat 1 (a * b).toNat, ?_⟩⟩ <;> rfl

/-- Claim C6, witness: the trace of `compute_triad(18, 6, 8, 3, 4)`. -/
theorem trace_stage_names_witness :
    traceKeys (compute_triad (.int 18) (.int 6) (.int 8) (.int 3) (.int 4)) =
      ["inputs", "normalization", "transformation", "denormalization", "K"] ∧
    (∃ q : ℚ, (traceOf (compute_triad (.int 18) (.int 6) (.int 8) (.int 3)
        (.int 4))).lookup "transformation" = some (.dict [("C4_prime", .str (ratStr q))])) ∧
    (∃ q : ℚ, (traceOf (compute_triad (.int 18) (.int 6) (.int 8) (.int 3)
        (.int 4))).lookup "K" = some (.str (ratStr q))) :=
  trace_stage_names (.int 18) (.int 6) (.int 8) (.int 3) (.int 4) (by
    have h36 : mkRat 36 (Int.toNat 36) * 2 = (2 : ℚ) := by
      rw [mkRat_toNat_eq_div 36 36 (by norm_num)]; norm_num
    norm_num [isSuccess, compute_triad, gcd3, h36])

/-- Claim C6, counterexample: `compute_triad(18, 6, 8, 3, 4)` succeeds and its
trace has no stage named balancing. -/
theorem trace_keys_no_balancing :
    isSuccess (compute_triad (.int 18) (.int 6) (.int 8) (.int 3) (.int 4)) = true ∧
    "balancing" ∉ traceKeys (compute_triad (.int 18) (.int 6) (.int 8) (.int 3) (.int 4)) := by
  have h36 : mkRat 36 (Int.toNat 36) * 2 = (2 : ℚ) := by
    rw [mkRat_toNat_eq_div 36 36 (by norm_num)]; norm_num
  constructor
  · norm_num [isSuccess, compute_triad, gcd3, h36]
  · norm_num [traceKeys, compute_triad, gcd3, h36]
    decide

/-- Claim C2: whenever `compute_triad(C1, C2, C3, a, b)` succeeds with C4,
`check_static_balance(C1, C2, C3, C4)` succeeds with a co-prime pair equal to
a/b in lowest terms and K = 1/(a·b) for that pair. -/
theorem round_trip_balance (c1 c2 c3 a b c4 : ℤ)
    (hok : getC4 (compute_triad (.int c1) (.int c2) (.int c3) (.int a) (.int b)) = some c4) :
    ∃ ar br : ℤ, ∃ Kr : ℚ, ∃ st : Steps,
      check_static_balance (.int c1) (.int c2) (.int c3) (.int c4) = .ok (ar, br, Kr, st) ∧
      Int.gcd ar br = 1 ∧
      (ar : ℚ) / (br : ℚ) = (a : ℚ) / (b : ℚ) ∧
      Kr = 1 / ((ar : ℚ) * (br : ℚ)) := by
  rcases hres : compute_triad (.int c1) (.int c2) (.int c3) (.int a) (.int b) with e | r
  · rw [hres] at hok
    simp [getC4, Except.toOption] at hok
  · rw [hres] at hok
    obtain ⟨c1', c2', c3', a', b', he1, he2, he3, he4, he5, hcond, hden, hr⟩ :=
      compute_triad_ok hres
    injection he1 with he1; subst he1
    injection he2 with he2; subst he2
    injection he3 with he3; subst he3
    injection he4 with he4; subst he4
    injection he5 with he5; subst he5
    obtain ⟨h1, h2, h3, ha, hb⟩ := hcond
    subst hr
    simp only [getC4, Except.toOption, Option.map, Option.some.injEq] at hok
    have hQint : ((mkRat (a * (c2 / gcd3 c1 c2 c3) * (c3 / gcd3 c1 c2 c3))
        (b * (c1 / gcd3 c1 c2 c3)).toNat * ((gcd3 c1 c2 c3 : ℤ) : ℚ)).num : ℚ)
        = mkRat (a * (c2 / gcd3 c1 c2 c3) * (c3 / gcd3 c1 c2 c3))
            (b * (c1 / gcd3 c1 c2 c3)).toNat * ((gcd3 c1 c2 c3 : ℤ) : ℚ) :=
      (Rat.den_eq_one_iff _).mp hden
    have hc4 : ((c4 : ℤ) : ℚ)
        = mkRat (a * (c2 / gcd3 c1 c2 c3) * (c3 / gcd3 c1 c2 c3))
            (b * (c1 / gcd3 c1 c2 c3)).toNat * ((gcd3 c1 c2 c3 : ℤ) : ℚ) := by
      rw [← hok]
      exact hQint
    have hc4' : (c4 : ℚ) = ((a : ℚ) * (c2 : ℚ) * (c3 : ℚ)) / ((b : ℚ) * (c1 : ℚ)) := by
      rw [hc4, triad_q_eq h1 h2 h3 ha hb]
      push_cast
      ring
    have hc4posQ : (0 : ℚ) < (c4 : ℚ) := by
      rw [hc4']
      positivity
    have hc4pos : 0 < c4 := by exact_mod_cast hc4posQ
    obtain ⟨st, hbal⟩ := check_static_balance_form c1 c2 c3 c4 ⟨h1, h2, h3, hc4pos⟩
    have hrat : balRatio c1 c2 c3 c4 = ((c1 : ℚ) * (c4 : ℚ)) / ((c2 : ℚ) * (c3 : ℚ)) :=
      balance_ratio_eq h1 h2 h3 hc4pos
    have hab : balRatio c1 c2 c3 c4 = (a : ℚ) / (b : ℚ) := by
      rw [hrat, hc4']
      have hb1 : (c1 : ℚ) ≠ 0 := by positivity
      have hb2 : (c2 : ℚ) ≠ 0 := by positivity
      have hb3 : (c3 : ℚ) ≠ 0 := by positivity
      have hbb : (b : ℚ) ≠ 0 := by positivity
      field_simp
      ring
    have hgcd1 : Int.gcd (balRatio c1 c2 c3 c4).num ((balRatio c1 c2 c3 c4).den : ℤ) = 1 :=
      int_gcd_num_den _
    have hA : balA c1 c2 c3 c4 = (balRatio c1 c2 c3 c4).num := by
      unfold balA
      rw [hgcd1]
      simp
    have hB : balB c1 c2 c3 c4 = ((balRatio c1 c2 c3 c4).den : ℤ) := by
      unfold balB
      rw [hgcd1]
      simp
    have hApos : 0 < balA c1 c2 c3 c4 := by
      rw [hA]
      refine Rat.num_pos.mpr ?_
      rw [hab]
      positivity
    have hBpos : 0 < balB c1 c2 c3 c4 := by
      rw [hB]
      exact_mod_cast (balRatio c1 c2 c3 c4).pos
    refine ⟨balA c1 c2 c3 c4, balB c1 c2 c3 c4,
      mkRat 1 (balA c1 c2 c3 c4 * balB c1 c2 c3 c4).toNat, st, hbal, ?_, ?_, ?_⟩
    · rw [hA, hB]
      exact hgcd1
    · rw [hA, hB]
      have hcast : (((balRatio c1 c2 c3 c4).den : ℤ) : ℚ) = ((balRatio c1 c2 c3 c4).den : ℚ) := by
        push_cast
        ring
      rw [hcast, Rat.num_div_den]
      exact hab
    · rw [mkRat_toNat_eq_div 1 _ (by positivity)]
      push_cast
      ring

/-- Claim C2, witness: the round trip at (18, 6, 8, 3, 4), whose C4 is 2. -/
theorem round_trip_balance_witness :
    ∃ ar br : ℤ, ∃ Kr : ℚ, ∃ st : Steps,
      check_static_balance (.int 18) (.int 6) (.int 8) (.int 2) = .ok (ar, br, Kr, st) ∧
      Int.gcd ar br = 1 ∧
      (ar : ℚ) / (br : ℚ) = ((3 : ℤ) : ℚ) / ((4 : ℤ) : ℚ) ∧
      Kr = 1 / ((ar : ℚ) * (br : ℚ)) :=
  round_trip_balance 18 6 8 3 4 2 (by
    have h36 : mkRat 36 (Int.toNat 36) * 2 = (2 : ℚ) := by
      rw [mkRat_toNat_eq_div 36 36 (by norm_num)]; norm_num
    norm_num [getC4, compute_triad, gcd3, h36]
    exact ⟨_, _, rfl⟩)

/-- Claim C4: `chain_triads` on the empty list returns the initial C1 with
empty K and trace lists; on a cons it runs `compute_triad`, propagates its
error unmodified without executing further steps, and otherwise feeds the
output C4 in as the next C1 and prepends the step's K and trace to the
remaining chain's ordered outputs. -/
theorem chain_triads_spec :
    (∀ c : PyVal, chain_triads c [] = .ok (c, [], [])) ∧
    (∀ (c c2 c3 a b : PyVal) (rest : List (PyVal × PyVal × PyVal × PyVal)),
      chain_triads c ((c2, c3, a, b) :: rest) =
        (compute_triad c c2 c3 a b).bind fun r =>
          (chain_triads (.int r.1) rest).map fun s => (s.1, r.2.1 :: s.2.1, r.2.2 :: s.2.2)) := by
  constructor
  · intro c
    rfl
  · intro c c2 c3 a b rest
    simp only [chain_triads, chainLoop]
    rcases compute_triad c c2 c3 a b with e | ⟨c4, K, st⟩
    · rfl
    · dsimp only
      rw [chainLoop_append rest (.int c4) ([] ++ [K]) ([] ++ [st])]
      rcases h2 : chainLoop (.int c4) [] [] rest with e' | r'
      · simp [Except.map, Except.bind, chain_triads, h2]
      · simp [Except.map, Except.bind, chain_triads, h2]

/-- Claim C10: `chain_triads` validates nothing itself — with an empty triad
list it returns the initial value unchanged, whatever it is (zero, negative or
not an int), with no error raised. -/
theorem chain_triads_empty (v : PyVal) :
    chain_triads v [] = .ok (v, [], []) := rfl

/-- Claim C5: each of `compute_triad`, `analogy_variant` and
`check_static_balance` raises `InvalidInput` exactly when some argument is not
a positive integer; in the error outcome no trace is produced (the error
carries none). -/
theorem invalid_input_iff (v1 v2 v3 v4 v5 : PyVal) :
    (compute_triad v1 v2 v3 v4 v5 = .error .invalidInput ↔
      ¬(v1.isPosInt = true ∧ v2.isPosInt = true ∧ v3.isPosInt = true ∧
        v4.isPosInt = true ∧ v5.isPosInt = true)) ∧
    (analogy_variant v1 v2 v3 = .error .invalidInput ↔
      ¬(v1.isPosInt = true ∧ v2.isPosInt = true ∧ v3.isPosInt = true)) ∧
    (check_static_balance v1 v2 v3 v4 = .error .invalidInput ↔
      ¬(v1.isPosInt = true ∧ v2.isPosInt = true ∧ v3.isPosInt = true ∧
        v4.isPosInt = true)) :=
  ⟨compute_triad_invalid_iff v1 v2 v3 v4 v5,
   analogy_variant_invalid_iff v1 v2 v3,
   check_static_balance_invalid_iff v1 v2 v3 v4⟩

/-- Claim C8: `add_connection` adds a directed edge exactly when both ids are
existing nodes, with the edge weighted by the from-node's stored K and the node
set unchanged; with a missing endpoint it returns the graph unchanged, raising
nothing and creating no node or edge. -/
theorem add_connection_spec (g : Network) (f t : String) :
    ((hasNode g f && hasNode g t) = true →
      (add_connection g f t).nodes = g.nodes ∧
      ∃ w, g.nodes.lookup f = some w ∧ (f, t, w) ∈ (add_connection g f t).edges) ∧
    ((hasNode g f && hasNode g t) = false → add_connection g f t = g) := by
  constructor
  · intro h
    obtain ⟨w, hw⟩ := any_key_lookup g.nodes f (by
      have := Bool.and_eq_true_iff.mp h
      exact this.1)
    unfold add_connection
    rw [if_pos h, hw]
    exact ⟨rfl, w, rfl, mem_addEdge g.edges f t w⟩
  · intro h
    unfold add_connection
    rw [if_neg (by simp [h])]

end TRF
